import Mathlib

/-
Verification of the lattice-surgery compiler core (patches.py,
topological_assembly.py) against its specification.  The Python sources are
embedded shallowly: classes become structures, in-place mutation becomes
functional update threaded through explicitly, Python exceptions become an
error-carrying result type, and the igraph dependency is replaced by an
explicit vertex/edge-list graph with a breadth-first multi-target search.
-/

namespace LSC

/-- A grid cell, written (column, row) exactly as in the Python sources. -/
abbrev Cell := Int × Int

/-- Orientation of a patch border (patches.py, class Orientation). -/
inductive Orientation where
  | Top
  | Bottom
  | Left
  | Right
deriving DecidableEq, Repr

/-- Border types (patches.py, class EdgeType).  The source spells the
stitched variants SolidStiched and DashedStiched. -/
inductive EdgeType where
  | Solid
  | SolidStiched
  | Dashed
  | DashedStiched
  | AncillaJoin
deriving DecidableEq, Repr

/-- patches.py, EdgeType.stitched_type. -/
def EdgeType.stitched_type : EdgeType → EdgeType
  | .Solid => .SolidStiched
  | .Dashed => .DashedStiched
  | t => t

/-- patches.py, EdgeType.unstitched_type. -/
def EdgeType.unstitched_type : EdgeType → EdgeType
  | .SolidStiched => .Solid
  | .DashedStiched => .Dashed
  | t => t

/-- rotation.py, class PauliOperator.  The routing engine receives these
values under the type annotation PauliMatrix; the objects passed around are
these four. -/
inductive PauliOperator where
  | I
  | X
  | Y
  | Z
deriving DecidableEq, Repr

/-- patches.py, PAULI_OPERATOR_TO_EDGE_MAP.  A Python dict lookup with a
missing key raises KeyError; none models the missing entries (I and Y). -/
def PAULI_OPERATOR_TO_EDGE_MAP : PauliOperator → Option EdgeType
  | .X => some EdgeType.Dashed
  | .Z => some EdgeType.Solid
  | _ => none

/-- patches.py, class PatchType. -/
inductive PatchType where
  | Qubit
  | DistillationQubit
  | Ancilla
deriving DecidableEq, Repr

/-- Modelled from the spec: qubit_state.py is imported by patches.py but is
not under src/.  Per the spec, the layout templates only need the state
vocabulary (Zero, Plus, Magic); no claim inspects these values. -/
inductive InitializeableState where
  | Zero
  | Plus
  | Magic
deriving DecidableEq, Repr

/-- patches.py, class Edge: an edge stores its owning cell, its orientation
and its border type (the constructor takes the border type first; the three
stored attributes are these). -/
structure Edge where
  cell : Cell
  orientation : Orientation
  border_type : EdgeType
deriving DecidableEq, Repr

/-- patches.py, Edge.getNeighbouringCell.  The source reads the offset from
a dict covering all four orientations, so the Optional never misses. -/
def Edge.getNeighbouringCell (e : Edge) : Cell :=
  match e.orientation with
  | .Top => (e.cell.1, e.cell.2 - 1)
  | .Bottom => (e.cell.1, e.cell.2 + 1)
  | .Left => (e.cell.1 - 1, e.cell.2)
  | .Right => (e.cell.1 + 1, e.cell.2)

/-- patches.py, Edge.isStiched. -/
def Edge.isStiched (e : Edge) : Bool :=
  decide (e.border_type = EdgeType.SolidStiched ∨ e.border_type = EdgeType.DashedStiched)

/-- patches.py, class CoordType. -/
inductive CoordType where
  | Col
  | Row
deriving DecidableEq, Repr

/-- patches.py, class Patch.  The uuid is an opaque identity used only for
external addressing; an optional Nat stands in for it. -/
structure Patch where
  patch_type : PatchType
  state : Option InitializeableState
  cells : List Cell
  edges : List Edge
  patch_uuid : Option Nat
deriving DecidableEq, Repr

/-- patches.py, Patch.getRepresentative: cells[0].  Every patch constructed
by the layout code or found through getPatchOfCell has at least one cell, so
the default of headD is never reached in the runs below. -/
def Patch.getRepresentative (p : Patch) : Cell :=
  p.cells.headD (0, 0)

/-- patches.py, Patch.getCoordList. -/
def Patch.getCoordList (p : Patch) (ct : CoordType) : List Int :=
  p.cells.map (fun c => match ct with | .Col => c.1 | .Row => c.2)

/-- patches.py, class Lattice (the logical_ops attribute is never read by
the operations under verification and is omitted). -/
structure Lattice where
  patches : List Patch
  min_rows : Int
  min_cols : Int
deriving DecidableEq, Repr

/-- Placeholder lattice used as the default of list indexing observers. -/
def defaultLattice : Lattice := ⟨[], 0, 0⟩

instance : Inhabited Lattice := ⟨defaultLattice⟩

/-- Placeholder patch used as the default of list indexing observers. -/
def defaultPatch : Patch := ⟨PatchType.Qubit, none, [], [], none⟩

/-- patches.py, Lattice.getMaxCoord: max(1 + max(all_coords), lower_bound).
Python max() on an empty iterable raises ValueError; none models that. -/
def Lattice.getMaxCoord (l : Lattice) (ct : CoordType) : Option Int :=
  let all_coords := (l.patches.map (fun p => p.getCoordList ct)).flatten
  let lower_bound := match ct with | .Row => l.min_rows | .Col => l.min_cols
  match all_coords with
  | [] => none
  | x :: xs => some (max (1 + xs.foldl max x) lower_bound)

/-- patches.py, Lattice.getCols. -/
def Lattice.getCols (l : Lattice) : Option Int := l.getMaxCoord CoordType.Col

/-- patches.py, Lattice.getRows. -/
def Lattice.getRows (l : Lattice) : Option Int := l.getMaxCoord CoordType.Row

/-- patches.py, Lattice.getPatchOfCell: the first patch owning the cell. -/
def Lattice.getPatchOfCell (l : Lattice) (target : Cell) : Option Patch :=
  l.patches.find? (fun p => p.cells.contains target)

/-- patches.py, Lattice.cellIsFree. -/
def Lattice.cellIsFree (l : Lattice) (target : Cell) : Bool :=
  (l.getPatchOfCell target).isNone

/-- patches.py, Lattice.getPatchRepresentative: cells[0] of the owning
patch, or the cell itself when the cell is free. -/
def Lattice.getPatchRepresentative (l : Lattice) (cell : Cell) : Cell :=
  match l.getPatchOfCell cell with
  | some p => p.cells.headD cell
  | none => cell

/-- Observer (not from the source): the border type recorded on the patch
owning a cell, at a given orientation of that cell. -/
def Lattice.borderTypeAt (l : Lattice) (c : Cell) (o : Orientation) : Option EdgeType :=
  match l.getPatchOfCell c with
  | none => none
  | some p =>
    match p.edges.find? (fun e => decide (e.cell = c ∧ e.orientation = o)) with
    | none => none
    | some e => some e.border_type

/-- The Python exception kinds the embedded operations can raise. -/
inductive PyError where
  | assertionError
  | valueError
  | keyError
  | indexError
  | attributeError
deriving DecidableEq, Repr

/-- Result of running an embedded Python operation on a lattice: ok with the
final object state, or err with the exception kind and the object state at
the moment the exception escapes (in-place mutations made before the raise
persist, exactly as in Python). -/
inductive RunResult (α : Type) where
  | ok : α → RunResult α
  | err : PyError → α → RunResult α
deriving DecidableEq, Repr

/-- The object state carried by a RunResult, whether or not an exception was
raised. -/
def RunResult.state {α : Type} : RunResult α → α
  | .ok a => a
  | .err _ a => a

/-- An operator-request mapping (a Python dict): association list in
insertion order with pairwise distinct keys. -/
abbrev OpMap := List (Cell × PauliOperator)

/- ----------------------------------------------------------------- -/
/- Vertex names.  make_graph_of_free_cells labels graph vertices with the
   str() of the cell pair, for example the name of cell (12, 9) is the
   seven character string starting with a parenthesis.                 -/
/- ----------------------------------------------------------------- -/

def lparenStr : String := "("

def rparenStr : String := ")"

def commaSpaceStr : String := ", "

/-- Python str((col, row)): the vertex naming convention of the search
graph. -/
def cellStr (c : Cell) : String :=
  lparenStr ++ toString c.1 ++ commaSpaceStr ++ toString c.2 ++ rparenStr

/-- Digit accumulator for the integer parser below. -/
def parseDigits : List Char → Nat → Nat
  | [], acc => acc
  | c :: cs, acc => parseDigits cs (acc * 10 + (c.toNat - 48))

/-- Integer parser for the digit strings produced by str() on an int. -/
def parseIntChars : List Char → Int
  | [] => 0
  | c :: cs =>
    if c = '-' then -(Int.ofNat (parseDigits cs 0))
    else Int.ofNat (parseDigits (c :: cs) 0)

/-- Splits a character list at the first comma. -/
def splitAtComma : List Char → List Char → (List Char × List Char)
  | acc, [] => (acc.reverse, [])
  | acc, c :: cs => if c = ',' then (acc.reverse, cs) else splitAtComma (c :: acc) cs

/-- Removes space characters. -/
def stripSpaces (cs : List Char) : List Char :=
  cs.filter (fun c => !(c == ' '))

/-- topological_assembly.py, make_tuple (ast.literal_eval): parses a string
of the form produced by str() on a pair of ints back into the pair. -/
def make_tuple (s : String) : Cell :=
  let body := (s.data.drop 1).dropLast
  let two := splitAtComma [] body
  (parseIntChars (stripSpaces two.1), parseIntChars (stripSpaces two.2))

/- ----------------------------------------------------------------- -/
/- The search graph.  igraph.Graph(directed=True) with named vertices:
   vertices in insertion order, edges as ordered pairs of names (each
   add_edge call resolves names that are present in vs).              -/
/- ----------------------------------------------------------------- -/

/-- The directed search graph: vertex names in insertion order and directed
edges as ordered pairs of vertex names. -/
structure Graph where
  vs : List String
  es : List (String × String)
deriving DecidableEq, Repr

/-- List of the integers 0, 1, ..., n-1 (Python range(n); empty when n is
not positive). -/
def rangeInt (n : Int) : List Int :=
  (List.range n.toNat).map (fun k => (k : Int))

/-- topological_assembly.py, make_graph_of_free_cells: one vertex per free
cell of the rectangle [0, cols) x [0, rows), and a directed edge for every
ordered pair of 4-adjacent free cells (the loop visits both orders, so every
adjacency appears in both directions).  none models the ValueError that
getRows or getCols raises on a lattice with no patch cells. -/
def make_graph_of_free_cells (lattice : Lattice) : Option Graph := do
  let rows ← lattice.getRows
  let colsFirst ← lattice.getCols
  let vsList := ((rangeInt rows).map (fun row =>
    (rangeInt colsFirst).filterMap (fun col =>
      if lattice.cellIsFree (col, row) = true then some (cellStr (col, row))
      else none))).flatten
  let nrows ← lattice.getRows
  let ncols ← lattice.getCols
  let esList := ((rangeInt nrows).map (fun row =>
    ((rangeInt ncols).map (fun col =>
      ([(col, row + 1), (col, row - 1), (col + 1, row), (col - 1, row)] : List Cell).filterMap
        (fun nb =>
          if 0 ≤ nb.1 ∧ nb.1 < ncols ∧ 0 ≤ nb.2 ∧ nb.2 < nrows ∧
              lattice.cellIsFree (col, row) = true ∧ lattice.cellIsFree nb = true
          then some (cellStr (col, row), cellStr nb)
          else none))).flatten)).flatten
  return ⟨vsList, esList⟩

/-- topological_assembly.py line 211 compares patch.getRepresentative(), a
tuple of two ints, against source_patch_vertex, a string.  Python equality
between a tuple and a string is False for every pair of values, so the
comparison is modelled by the constant false function. -/
def tupleEqStr (_rep : Cell) (_source_patch_vertex : String) : Bool := false

/-- Inner loop of add_directed_edges: for one active patch, walk its edges
and add one directed activation edge per border whose type matches the
requested one and whose neighbouring cell is a vertex name of the graph. -/
def addEdgesForPatch (g : Graph) (patch : Patch) (requested_edge_type : EdgeType)
    (source_patch_vertex : String) : Graph :=
  patch.edges.foldl (fun g edge =>
    let neighbour := cellStr edge.getNeighbouringCell
    if edge.border_type = requested_edge_type ∧ neighbour ∈ g.vs then
      if tupleEqStr patch.getRepresentative source_patch_vertex = true then
        ⟨g.vs, g.es ++ [(cellStr patch.getRepresentative, neighbour)]⟩
      else
        ⟨g.vs, g.es ++ [(neighbour, cellStr patch.getRepresentative)]⟩
    else g) g

/-- topological_assembly.py, add_directed_edges.  Patches whose
representative is neither the source name nor one of the target names are
skipped; for the others the requested border type is read from the operator
map (none models the KeyError of the dict lookups, including the one on a Y
or I operator). -/
def add_directed_edges (g : Graph) (lattice : Lattice) (m : OpMap)
    (source_patch_vertex : String) (tagret_patch_vertex : List String) : Option Graph :=
  lattice.patches.foldlM (fun g patch =>
    let patch_representative := cellStr patch.getRepresentative
    if patch_representative ≠ source_patch_vertex ∧
        patch_representative ∉ tagret_patch_vertex then
      some g
    else
      match (m.find? (fun q => q.1 == patch.getRepresentative)).map (fun q => q.2) with
      | none => none
      | some op =>
        match PAULI_OPERATOR_TO_EDGE_MAP op with
        | none => none
        | some ret => some (addEdgesForPatch g patch ret source_patch_vertex)) g

/-- Neighbours of a vertex when edge directions are ignored (mode=all in
the igraph search): targets of outgoing edges first, then sources of
incoming edges, both in edge insertion order. -/
def Graph.neighborsAll (g : Graph) (v : String) : List String :=
  g.es.filterMap (fun e => if e.1 = v then some e.2 else none) ++
    g.es.filterMap (fun e => if e.2 = v then some e.1 else none)

/-- Breadth-first search worker: fuel, queue, visited list, parent list. -/
def bfsGo (g : Graph) :
    Nat → List String → List String → List (String × String) → List (String × String)
  | 0, _, _, parents => parents
  | _ + 1, [], _, parents => parents
  | fuel + 1, v :: queue, visited, parents =>
    let step := (g.neighborsAll v).foldl
      (fun (acc : List String × List String × List (String × String)) w =>
        if w ∈ acc.2.1 then acc
        else (acc.1 ++ [w], acc.2.1 ++ [w], acc.2.2 ++ [(w, v)]))
      (queue, visited, parents)
    bfsGo g fuel step.1 step.2.1 step.2.2

/-- Parent pointers of a breadth-first search from the source, directions
ignored.  The fuel exceeds the number of possible dequeues. -/
def Graph.bfsParents (g : Graph) (source : String) : List (String × String) :=
  bfsGo g (g.vs.length + 2 * g.es.length + 1) [source] [source] []

/-- Follows parent pointers back from a target; none when the target was
never reached. -/
def buildPathGo (parents : List (String × String)) (source : String) :
    Nat → String → List String → Option (List String)
  | 0, _, _ => none
  | fuel + 1, v, acc =>
    if v = source then some (source :: acc)
    else
      match parents.find? (fun q => q.1 == v) with
      | none => none
      | some q => buildPathGo parents source fuel q.2 (v :: acc)

/-- igraph get_shortest_paths(source, targets, mode=all, output=vpath): one
shortest path per target with edge directions ignored, the empty list for an
unreachable target.  igraph returns a single unspecified shortest path when
several are tied; this model fixes the tie-break to breadth-first discovery
order with neighbours enumerated in edge insertion order.  Every fact proved
below about a tied configuration holds for every choice of shortest path;
the concrete runs additionally pin down the path this model selects. -/
def Graph.get_shortest_paths (g : Graph) (source : String) (targets : List String) :
    List (List String) :=
  let parents := g.bfsParents source
  targets.map (fun t => (buildPathGo parents source (parents.length + 1) t []).getD [])

/- ----------------------------------------------------------------- -/
/- Materialization: add_ancilla_to_lattice_from_paths.                -/
/- ----------------------------------------------------------------- -/

/-- Python list indexing with negative index support; none models the
IndexError. -/
def pyIdx {α : Type} (xs : List α) (i : Int) : Option α :=
  let j : Int := if i < 0 then (xs.length : Int) + i else i
  if j < 0 then none else xs.get? j.toNat

/-- Replaces the first patch owning the given cell (the patch
getPatchOfCell returns); the in-place mutation of that patch object is
modelled by rebuilding the patch list. -/
def modifyFirstPatch (c : Cell) (f : Patch → Patch) : List Patch → List Patch
  | [] => []
  | p :: ps => if p.cells.contains c then f p :: ps else p :: modifyFirstPatch c f ps

/-- The stitching loop body of add_ancilla_to_lattice_from_paths: every edge
of the patch whose neighbouring cell equals the given path cell has its
border type replaced by its stitched type. -/
def stitchTowards (target : Cell) (p : Patch) : Patch :=
  ⟨p.patch_type, p.state, p.cells,
    p.edges.map (fun e =>
      if e.getNeighbouringCell = target then
        ⟨e.cell, e.orientation, e.border_type.stitched_type⟩
      else e),
    p.patch_uuid⟩

/-- Python set union, with iteration order fixed to first insertion (CPython
leaves set order unspecified; no claim depends on the order of the ancilla
cell list, only on its membership). -/
def setUnion (a : List Cell) : List Cell → List Cell
  | [] => a
  | c :: cs => if a.contains c then setUnion a cs else setUnion (a ++ [c]) cs

/-- Loop of add_ancilla_to_lattice_from_paths over the path list, threading
the lattice (stitches applied so far) and the accumulated ancilla cell set.
For each path: path[0] (IndexError on the empty path of an unreachable
target), the owning source patch (AttributeError when the cell is free),
stitch its borders facing path[1], then the same at the target end with
path[-1] and path[-2], then accumulate the interior path[1:-1].  After the
loop one Ancilla patch holding the accumulated cells is appended,
unconditionally.  The source evaluates path[1] inside the stitching loop;
it is hoisted here, which is indistinguishable whenever the source patch
has at least one edge, as every patch in the runs below does. -/
def addAncillaGo (l : Lattice) (anc : List Cell) :
    List (List Cell) → RunResult Lattice
  | [] => .ok ⟨l.patches ++ [⟨PatchType.Ancilla, none, anc, [], none⟩],
      l.min_rows, l.min_cols⟩
  | path :: rest =>
    match pyIdx path 0 with
    | none => .err .indexError l
    | some p0 =>
      match l.getPatchOfCell p0 with
      | none => .err .attributeError l
      | some _ =>
        match pyIdx path 1 with
        | none => .err .indexError l
        | some p1 =>
          let l1 : Lattice := ⟨modifyFirstPatch p0 (stitchTowards p1) l.patches,
            l.min_rows, l.min_cols⟩
          match pyIdx path (-1) with
          | none => .err .indexError l1
          | some pm1 =>
            match l1.getPatchOfCell pm1 with
            | none => .err .attributeError l1
            | some _ =>
              match pyIdx path (-2) with
              | none => .err .indexError l1
              | some pm2 =>
                let l2 : Lattice := ⟨modifyFirstPatch pm1 (stitchTowards pm2) l1.patches,
                  l1.min_rows, l1.min_cols⟩
                addAncillaGo l2 (setUnion anc (path.drop 1 |>.dropLast)) rest

/-- topological_assembly.py, add_ancilla_to_lattice_from_paths. -/
def add_ancilla_to_lattice_from_paths (lattice : Lattice)
    (paths : List (List Cell)) : RunResult Lattice :=
  addAncillaGo lattice [] paths

/-- topological_assembly.py, compute_ancilla_cells: assert that every key is
its own patch representative, build the free-cell graph, inject the active
vertices, pick the first key as source and the rest as targets, add the
directed activation edges, run the multi-target shortest path search with
directions ignored, and materialize the paths. -/
def compute_ancilla_cells (lattice : Lattice) (m : OpMap) : RunResult Lattice :=
  if (m.all (fun q => lattice.getPatchRepresentative q.1 == q.1)) = false then
    .err .assertionError lattice
  else
    match make_graph_of_free_cells lattice with
    | none => .err .valueError lattice
    | some g0 =>
      let active_qubits := m.map (fun q => cellStr q.1)
      let g1 : Graph := ⟨g0.vs ++ active_qubits, g0.es⟩
      match pyIdx active_qubits 0 with
      | none => .err .indexError lattice
      | some source_qubit =>
        let target_qubits := active_qubits.drop 1
        match add_directed_edges g1 lattice m source_qubit target_qubits with
        | none => .err .keyError lattice
        | some g2 =>
          let shortest_paths := (g2.get_shortest_paths source_qubit target_qubits).map
            (fun p => p.map make_tuple)
          add_ancilla_to_lattice_from_paths lattice shortest_paths

/-- topological_assembly.py, LatticeLayoutInitializer.singleSquarePatch:
one cell, Solid top and bottom borders, Dashed left and right borders. -/
def singleSquarePatch (cell : Cell) (patch_type : PatchType)
    (patch_state : Option InitializeableState) : Patch :=
  ⟨patch_type, patch_state, [cell],
    [⟨cell, Orientation.Top, EdgeType.Solid⟩,
     ⟨cell, Orientation.Bottom, EdgeType.Solid⟩,
     ⟨cell, Orientation.Left, EdgeType.Dashed⟩,
     ⟨cell, Orientation.Right, EdgeType.Dashed⟩], none⟩




/-- Input of claim C1: one single-cell patch at the origin, requested
operator Z, minimum two rows. -/
def c1Lattice : Lattice :=
  ⟨[singleSquarePatch (0, 0) PatchType.Qubit (some InitializeableState.Zero)], 2, 0⟩

/-- Operator map of claim C1. -/
def c1Map : OpMap := [((0, 0), PauliOperator.Z)]

/-- The search graph of the C1 run, built exactly as compute_ancilla_cells
builds it before the path search: free-cell graph, active vertices appended,
directed activation edges added. -/
def c1Graph : Option Graph :=
  (make_graph_of_free_cells c1Lattice).bind (fun g0 =>
    add_directed_edges ⟨g0.vs ++ c1Map.map (fun q => cellStr q.1), g0.es⟩
      c1Lattice c1Map (cellStr (0, 0)) [])


/-- Input of claim C2: single-cell patches at columns 0, 2, 4 on a one-row
grid; the Z target at (4, 0) has no matching border inside the grid and is
unreachable. -/
def c2Lattice : Lattice :=
  ⟨[singleSquarePatch (0, 0) PatchType.Qubit (some InitializeableState.Zero),
    singleSquarePatch (2, 0) PatchType.Qubit (some InitializeableState.Zero),
    singleSquarePatch (4, 0) PatchType.Qubit (some InitializeableState.Zero)], 1, 0⟩

/-- Operator map of claim C2. -/
def c2Map : OpMap :=
  [((0, 0), PauliOperator.X), ((2, 0), PauliOperator.X), ((4, 0), PauliOperator.Z)]


/-- Input of claim C3: three collinear single-cell X patches on a one-row
grid; the only route to (4, 0) passes through the target vertex (2, 0). -/
def c3Lattice : Lattice :=
  ⟨[singleSquarePatch (0, 0) PatchType.Qubit (some InitializeableState.Zero),
    singleSquarePatch (2, 0) PatchType.Qubit (some InitializeableState.Zero),
    singleSquarePatch (4, 0) PatchType.Qubit (some InitializeableState.Zero)], 1, 0⟩

/-- Operator map of claim C3. -/
def c3Map : OpMap :=
  [((0, 0), PauliOperator.X), ((2, 0), PauliOperator.X), ((4, 0), PauliOperator.X)]


/-- Input of claim C4: two directly adjacent single-cell X patches; routing
succeeds with an empty interior. -/
def c4Lattice : Lattice :=
  ⟨[singleSquarePatch (0, 0) PatchType.Qubit (some InitializeableState.Zero),
    singleSquarePatch (1, 0) PatchType.Qubit (some InitializeableState.Zero)], 1, 0⟩

/-- Operator map of claim C4. -/
def c4Map : OpMap := [((0, 0), PauliOperator.X), ((1, 0), PauliOperator.X)]


/-- Scenario A of the spec (claim C7): single-cell patches at columns 0, 4,
6 of row 0, minimum two rows. -/
def scenarioALattice : Lattice :=
  ⟨[singleSquarePatch (0, 0) PatchType.Qubit (some InitializeableState.Zero),
    singleSquarePatch (4, 0) PatchType.Qubit (some InitializeableState.Zero),
    singleSquarePatch (6, 0) PatchType.Qubit (some InitializeableState.Zero)], 2, 0⟩

/-- Operator map of scenario A. -/
def scenarioAMap : OpMap :=
  [((0, 0), PauliOperator.X), ((4, 0), PauliOperator.Z), ((6, 0), PauliOperator.X)]



/-- A single-cell Qubit patch with explicitly given border types, used to
spell out the lattices produced by the concrete runs. -/
def stitchedSquarePatch (cell : Cell) (top bottom left right : EdgeType) : Patch :=
  ⟨PatchType.Qubit, some InitializeableState.Zero, [cell],
    [⟨cell, Orientation.Top, top⟩,
     ⟨cell, Orientation.Bottom, bottom⟩,
     ⟨cell, Orientation.Left, left⟩,
     ⟨cell, Orientation.Right, right⟩], none⟩

/-- The search graph the C1 run produces: the free cell (0, 1), the active
vertex (0, 0), and a single activation edge. -/
def c1GraphResult : Graph :=
  ⟨[cellStr (0, 1), cellStr (0, 0)], [(cellStr (0, 1), cellStr (0, 0))]⟩

/-- Claim C1: every activation edge of a patch matching the source key is
oriented outward, from the patch vertex to the neighbour, and target-patch
edges inward.  The code violates the source half: line 211 compares a tuple
with a string, which is always False in Python, so the source patch at
(0, 0) gets the inward edge from its Bottom neighbour (0, 1) instead of the
claimed outward edge. -/
theorem c1_source_activation_edge_added_inward :
    c1Graph = some c1GraphResult ∧
    (cellStr (0, 0), cellStr (0, 1)) ∉ c1GraphResult.es ∧
    (cellStr (0, 1), cellStr (0, 0)) ∈ c1GraphResult.es :=
  ⟨rfl, by decide, by decide⟩

/-- The lattice state at the moment the C2 run raises: the borders of the
reachable pair (0, 0) and (2, 0) are already stitched. -/
def c2After : Lattice :=
  ⟨[stitchedSquarePatch (0, 0) EdgeType.Solid EdgeType.Solid EdgeType.Dashed EdgeType.DashedStiched,
    stitchedSquarePatch (2, 0) EdgeType.Solid EdgeType.Solid EdgeType.DashedStiched EdgeType.Dashed,
    singleSquarePatch (4, 0) PatchType.Qubit (some InitializeableState.Zero)], 1, 0⟩

/-- Claim C2: an unreachable target must produce a distinguishable
routing-failure error with the lattice completely unchanged.  The code
instead lets the search return an empty path for the unreachable target
(4, 0), stitches the borders of the reachable target first, and then dies
with IndexError at path[0] of the empty path: the error is not a
routing-failure and the lattice is left partially mutated. -/
theorem c2_unreachable_target_index_error_partial_mutation :
    compute_ancilla_cells c2Lattice c2Map = RunResult.err PyError.indexError c2After ∧
    c2After ≠ c2Lattice :=
  ⟨rfl, by decide⟩

/-- The lattice the C3 run produces. -/
def c3After : Lattice :=
  ⟨[stitchedSquarePatch (0, 0) EdgeType.Solid EdgeType.Solid EdgeType.Dashed EdgeType.DashedStiched,
    stitchedSquarePatch (2, 0) EdgeType.Solid EdgeType.Solid EdgeType.DashedStiched EdgeType.Dashed,
    stitchedSquarePatch (4, 0) EdgeType.Solid EdgeType.Solid EdgeType.DashedStiched EdgeType.Dashed,
    ⟨PatchType.Ancilla, none, [(1, 0), (2, 0), (3, 0)], [], none⟩], 1, 0⟩

/-- Claim C3: every cell of the new ancilla patch was free before the call.
The code violates this: the search ignores edge directions (mode=all), so
the shortest path from (0, 0) to (4, 0) runs straight through the target
vertex (2, 0), and the appended ancilla patch contains (2, 0) although that
cell belongs to the target patch. -/
theorem c3_ancilla_patch_takes_target_patch_cell :
    compute_ancilla_cells c3Lattice c3Map = RunResult.ok c3After ∧
    (c3After.patches.getLastD defaultPatch).patch_type = PatchType.Ancilla ∧
    (c3After.patches.getLastD defaultPatch).cells.contains (2, 0) = true ∧
    c3Lattice.cellIsFree (2, 0) = false :=
  ⟨rfl, rfl, by decide, by decide⟩

/-- The lattice the C4 run produces. -/
def c4After : Lattice :=
  ⟨[stitchedSquarePatch (0, 0) EdgeType.Solid EdgeType.Solid EdgeType.Dashed EdgeType.DashedStiched,
    stitchedSquarePatch (1, 0) EdgeType.Solid EdgeType.Solid EdgeType.DashedStiched EdgeType.Dashed,
    ⟨PatchType.Ancilla, none, [], [], none⟩], 1, 0⟩

/-- Claim C4: when routing succeeds with an empty interior union, no ancilla
patch may be created.  The code violates this: line 238 appends the Ancilla
patch unconditionally, so the run on two directly adjacent patches appends
an Ancilla patch with an empty cell list. -/
theorem c4_empty_ancilla_patch_appended :
    compute_ancilla_cells c4Lattice c4Map = RunResult.ok c4After ∧
    c4After.patches.length = c4Lattice.patches.length + 1 ∧
    c4After.patches.getLastD defaultPatch =
      ⟨PatchType.Ancilla, none, [], [], none⟩ :=
  ⟨rfl, rfl, rfl⟩

/-- The lattice the scenario A run produces. -/
def scenarioAResult : Lattice :=
  ⟨[stitchedSquarePatch (0, 0) EdgeType.Solid EdgeType.Solid EdgeType.Dashed EdgeType.DashedStiched,
    stitchedSquarePatch (4, 0) EdgeType.Solid EdgeType.SolidStiched EdgeType.Dashed EdgeType.Dashed,
    stitchedSquarePatch (6, 0) EdgeType.Solid EdgeType.Solid EdgeType.DashedStiched EdgeType.Dashed,
    ⟨PatchType.Ancilla, none,
      [(1, 0), (1, 1), (2, 1), (3, 1), (4, 1), (5, 1), (5, 0)], [], none⟩], 2, 0⟩

/-- Claim C7 as stated is false on the code: on scenario A the ancilla patch
contains the cell (4, 1), which does not lie on row 0, and the Left and
Right borders of the Z patch at (4, 0) stay Dashed and unstitched — the
route is forced to enter (4, 0) through its Bottom Solid border, since Z
requires a Solid border. -/
theorem c7_claim_false_on_scenario_a :
    compute_ancilla_cells scenarioALattice scenarioAMap = RunResult.ok scenarioAResult ∧
    (scenarioAResult.patches.getLastD defaultPatch).cells.contains (4, 1) = true ∧
    ((4, 1) : Cell).2 ≠ 0 ∧
    scenarioAResult.borderTypeAt (4, 0) Orientation.Left = some EdgeType.Dashed ∧
    scenarioAResult.borderTypeAt (4, 0) Orientation.Right = some EdgeType.Dashed :=
  ⟨rfl, by decide, by decide, by decide, by decide⟩

/-- Claim C7, amended to what the code does on scenario A: routing succeeds;
exactly one new patch, of Ancilla kind, is appended; all of its cells were
free cells of the input lattice (they route along row 0 up to column 3, then
along row 1 to enter (4, 0) from below and (6, 0) via (5, 0)); and the
stitched borders are the Right border of (0, 0), the Bottom border of
(4, 0), and the Left border of (6, 0). -/
theorem c7_scenario_a_actual_behaviour :
    compute_ancilla_cells scenarioALattice scenarioAMap = RunResult.ok scenarioAResult ∧
    scenarioAResult.patches.length = scenarioALattice.patches.length + 1 ∧
    (scenarioAResult.patches.getLastD defaultPatch).patch_type = PatchType.Ancilla ∧
    ((scenarioAResult.patches.getLastD defaultPatch).cells.all
      (fun cl => scenarioALattice.cellIsFree cl)) = true ∧
    scenarioAResult.borderTypeAt (0, 0) Orientation.Right = some EdgeType.DashedStiched ∧
    scenarioAResult.borderTypeAt (4, 0) Orientation.Bottom = some EdgeType.SolidStiched ∧
    scenarioAResult.borderTypeAt (6, 0) Orientation.Left = some EdgeType.DashedStiched :=
  ⟨rfl, rfl, rfl, by decide, by decide, by decide, by decide⟩


/- ----------------------------------------------------------------- -/
/- List helpers used by the composer proofs.                          -/
/- ----------------------------------------------------------------- -/

theorem mapCongrMem {α β : Type} (l : List α) (f g : α → β)
    (h : ∀ a ∈ l, f a = g a) : l.map f = l.map g := by
  induction l with
  | nil => rfl
  | cons x xs ih =>
    simp only [List.map_cons]
    rw [h x (List.mem_cons_self x xs), ih (fun a ha => h a (List.mem_cons_of_mem x ha))]

theorem getD_append_lt {α : Type} (l l' : List α) (d : α) :
    ∀ n, n < l.length → (l ++ l').getD n d = l.getD n d := by
  induction l with
  | nil => intro n h; exact absurd h (Nat.not_lt_zero n)
  | cons x xs ih =>
    intro n h
    cases n with
    | zero => rfl
    | succ m =>
      simp only [List.cons_append, List.getD_cons_succ]
      exact ih m (Nat.lt_of_succ_lt_succ h)

theorem getD_concat_self {α : Type} (l : List α) (x d : α) :
    (l ++ [x]).getD l.length d = x := by
  induction l with
  | nil => rfl
  | cons y ys ih => simpa only [List.cons_append, List.getD_cons_succ] using ih

theorem set_concat_self {α : Type} (l : List α) (x y : α) :
    (l ++ [x]).set l.length y = l ++ [y] := by
  induction l with
  | nil => rfl
  | cons z zs ih =>
    simp only [List.cons_append, List.length_cons]
    show z :: (zs ++ [x]).set zs.length y = z :: (zs ++ [y])
    rw [ih]

theorem takeConcatSelf {α : Type} (l : List α) (x : α) :
    (l ++ [x]).take l.length = l := by
  induction l with
  | nil => rfl
  | cons y ys ih => simp only [List.cons_append, List.length_cons, List.take_succ_cons, ih]

theorem getLastD_concat_self {α : Type} (l : List α) (x d : α) :
    (l ++ [x]).getLastD d = x := by
  rw [List.getLastD_eq_getLast?, List.getLast?_concat]
  rfl

theorem getLastD_mem {α : Type} (l : List α) (d : α) (h : l ≠ []) :
    l.getLastD d ∈ l := by
  induction l with
  | nil => exact absurd rfl h
  | cons x xs ih =>
    cases hx : xs with
    | nil => simp [List.getLastD]
    | cons y ys =>
      subst hx
      have : (x :: y :: ys).getLastD d = (y :: ys).getLastD d := rfl
      rw [this]
      exact List.mem_cons_of_mem x (ih (by simp))

theorem getLastD_eq_getD_pred {α : Type} (l : List α) (d : α) (h : l ≠ []) :
    l.getLastD d = l.getD (l.length - 1) d := by
  induction l with
  | nil => exact absurd rfl h
  | cons x xs ih =>
    cases hx : xs with
    | nil => rfl
    | cons y ys =>
      subst hx
      have h1 : (x :: y :: ys).getLastD d = (y :: ys).getLastD d := rfl
      have h2 : (x :: y :: ys).length - 1 = ((y :: ys).length - 1) + 1 := by
        simp [List.length_cons]
      rw [h1, ih (by simp), h2, List.getD_cons_succ]

theorem getD_map_lt {α β : Type} (f : α → β) (l : List α) (d : β) (d' : α) :
    ∀ n, n < l.length → (l.map f).getD n d = f (l.getD n d') := by
  induction l with
  | nil => intro n h; exact absurd h (Nat.not_lt_zero n)
  | cons x xs ih =>
    intro n h
    cases n with
    | zero => rfl
    | succ m =>
      simp only [List.map_cons, List.getD_cons_succ]
      exact ih m (Nat.lt_of_succ_lt_succ h)

theorem getD_set_self {α : Type} (l : List α) (x d : α) :
    ∀ n, n < l.length → (l.set n x).getD n d = x := by
  induction l with
  | nil => intro n h; exact absurd h (Nat.not_lt_zero n)
  | cons y ys ih =>
    intro n h
    cases n with
    | zero => rfl
    | succ m =>
      simp only [List.set_cons_succ, List.getD_cons_succ]
      exact ih m (Nat.lt_of_succ_lt_succ h)

/- ----------------------------------------------------------------- -/
/- The time-slice composer.                                           -/
/- ----------------------------------------------------------------- -/

/-- TopologicalAssemblyComposer.  The Python object keeps
qubit_patch_slices, a list of references to Lattice objects: initQubit
appends the last reference itself, newTimeSlice appends a deep copy as a
fresh object, and every mutating operation acts in place on the object the
last reference points to.  The embedding makes the object store explicit:
heap holds the lattice objects, slices holds the references as heap
indices. -/
structure Composer where
  heap : List Lattice
  slices : List Nat
deriving DecidableEq, Repr

/-- Construction from the initial layout: a one-object heap and a single
reference to it. -/
def Composer.ofLattice (initial_layout : Lattice) : Composer :=
  ⟨[initial_layout], [0]⟩

/-- The reference qubit_patch_slices[-1]. -/
def Composer.lastAddr (c : Composer) : Nat := c.slices.getLastD 0

/-- The lattice object the last reference points to. -/
def Composer.lastLattice (c : Composer) : Lattice :=
  c.heap.getD c.lastAddr defaultLattice

/-- In-place mutation of the object behind the last reference: the heap
cell is overwritten, every reference is untouched. -/
def Composer.mutateLast (c : Composer) (f : Lattice → Lattice) : Composer :=
  ⟨c.heap.set c.lastAddr (f c.lastLattice), c.slices⟩

/-- TopologicalAssemblyComposer.newTimeSlice: appends
copy.deepcopy(qubit_patch_slices[-1]) — a fresh, structurally independent
object at a fresh heap index. -/
def Composer.newTimeSlice (c : Composer) : Composer :=
  ⟨c.heap ++ [c.lastLattice], c.slices ++ [c.heap.length]⟩

/-- TopologicalAssemblyComposer.initQubit: appends qubit_patch_slices[-1]
itself — the same reference, no copy (the patch_idx and state arguments are
ignored by the source). -/
def Composer.initQubit (c : Composer) : Composer :=
  ⟨c.heap, c.slices ++ [c.lastAddr]⟩

/-- TopologicalAssemblyComposer.getSlices: the snapshot history as the
sequence of lattice objects the references point to. -/
def Composer.getSlices (c : Composer) : List Lattice :=
  c.slices.map (fun a => c.heap.getD a defaultLattice)

/-- Well-formedness of the embedding: at least one snapshot (the
constructor establishes this) and every reference points into the heap. -/
def Composer.wf (c : Composer) : Prop :=
  c.slices ≠ [] ∧ ∀ a ∈ c.slices, a < c.heap.length

/-- Unstitching of one edge object (clearAncilla inner loop body). -/
def edgeUnstitch (e : Edge) : Edge :=
  ⟨e.cell, e.orientation, e.border_type.unstitched_type⟩

/-- Unstitching of every border of one patch. -/
def unstitchPatch (p : Patch) : Patch :=
  ⟨p.patch_type, p.state, p.cells, p.edges.map edgeUnstitch, p.patch_uuid⟩

/-- The lattice-level effect of TopologicalAssemblyComposer.clearAncilla:
replace every border type of every patch by its unstitched type, then keep
only the patches whose kind is not Ancilla. -/
def clearAncillaL (l : Lattice) : Lattice :=
  ⟨(l.patches.map unstitchPatch).filter
      (fun p => decide (p.patch_type ≠ PatchType.Ancilla)),
    l.min_rows, l.min_cols⟩

/-- TopologicalAssemblyComposer.clearAncilla: acts in place on the last
snapshot. -/
def Composer.clearAncilla (c : Composer) : Composer :=
  c.mutateLast clearAncillaL

/-- TopologicalAssemblyComposer.clearLattice: empties the patch list of the
last snapshot. -/
def Composer.clearLattice (c : Composer) : Composer :=
  c.mutateLast (fun l => ⟨[], l.min_rows, l.min_cols⟩)

/-- TopologicalAssemblyComposer.measureMultiPatch: runs
compute_ancilla_cells in place on the last snapshot; when the engine
raises, the mutations made before the raise stay behind on the object. -/
def Composer.measureMultiPatch (c : Composer) (m : OpMap) : Composer :=
  c.mutateLast (fun l => (compute_ancilla_cells l m).state)

theorem Composer.lastAddr_lt (c : Composer) (h : c.wf) :
    c.lastAddr < c.heap.length :=
  h.2 c.lastAddr (getLastD_mem c.slices 0 h.1)

theorem Composer.mutateLast_lastLattice (c : Composer) (f : Lattice → Lattice)
    (h : c.wf) : (c.mutateLast f).lastLattice = f c.lastLattice := by
  show (c.heap.set c.lastAddr (f c.lastLattice)).getD
      ((c.mutateLast f).slices.getLastD 0) defaultLattice = f c.lastLattice
  have hs : (c.mutateLast f).slices = c.slices := rfl
  rw [hs]
  exact getD_set_self c.heap (f c.lastLattice) defaultLattice c.lastAddr
    (c.lastAddr_lt h)

theorem Composer.mutateLast_wf (c : Composer) (f : Lattice → Lattice)
    (h : c.wf) : (c.mutateLast f).wf := by
  refine ⟨h.1, fun a ha => ?_⟩
  have : (c.mutateLast f).heap.length = c.heap.length := by
    simp [Composer.mutateLast]
  rw [this]
  exact h.2 a ha

/-- Claim C5: for every composer with a non-empty snapshot history,
newTimeSlice appends a deep, structurally independent copy of the last
snapshot, and any subsequent in-place mutation of the new last snapshot
leaves every earlier snapshot, slice n-1 included, bit-for-bit unchanged.
measureMultiPatch, clearAncilla and clearLattice are all of the form
mutateLast f, so the mutation is quantified over every f. -/
theorem c5_newTimeSlice_snapshot_isolation (c : Composer) (f : Lattice → Lattice)
    (h : c.wf) :
    c.newTimeSlice.getSlices = c.getSlices ++ [c.lastLattice] ∧
    (c.newTimeSlice.mutateLast f).getSlices.take c.slices.length = c.getSlices ∧
    (c.newTimeSlice.mutateLast f).lastLattice = f c.lastLattice := by
  obtain ⟨hne, hlt⟩ := h
  have hmap : ∀ x : Lattice,
      c.slices.map (fun a => (c.heap ++ [x]).getD a defaultLattice) =
        c.slices.map (fun a => c.heap.getD a defaultLattice) :=
    fun x => mapCongrMem _ _ _
      (fun a ha => getD_append_lt c.heap [x] defaultLattice a (hlt a ha))
  have haddr : c.newTimeSlice.lastAddr = c.heap.length := by
    show (c.slices ++ [c.heap.length]).getLastD 0 = c.heap.length
    exact getLastD_concat_self c.slices c.heap.length 0
  have hlast : c.newTimeSlice.lastLattice = c.lastLattice := by
    show (c.heap ++ [c.lastLattice]).getD c.newTimeSlice.lastAddr defaultLattice
        = c.lastLattice
    rw [haddr]
    exact getD_concat_self c.heap c.lastLattice defaultLattice
  have hheap : (c.newTimeSlice.mutateLast f).heap = c.heap ++ [f c.lastLattice] := by
    show (c.heap ++ [c.lastLattice]).set c.newTimeSlice.lastAddr
        (f c.newTimeSlice.lastLattice) = c.heap ++ [f c.lastLattice]
    rw [haddr, hlast]
    exact set_concat_self c.heap c.lastLattice (f c.lastLattice)
  have hA : c.newTimeSlice.getSlices = c.getSlices ++ [c.lastLattice] := by
    show (c.slices ++ [c.heap.length]).map
        (fun a => (c.heap ++ [c.lastLattice]).getD a defaultLattice)
      = c.getSlices ++ [c.lastLattice]
    rw [List.map_append, hmap]
    simp only [List.map_cons, List.map_nil]
    rw [getD_concat_self]
    rfl
  have hB : (c.newTimeSlice.mutateLast f).getSlices
      = c.getSlices ++ [f c.lastLattice] := by
    show (c.slices ++ [c.heap.length]).map
        (fun a => (c.newTimeSlice.mutateLast f).heap.getD a defaultLattice)
      = c.getSlices ++ [f c.lastLattice]
    rw [hheap, List.map_append, hmap]
    simp only [List.map_cons, List.map_nil]
    rw [getD_concat_self]
    rfl
  refine ⟨hA, ?_, ?_⟩
  · rw [hB]
    have hlen : c.slices.length = c.getSlices.length := (List.length_map _ _).symm
    rw [hlen, takeConcatSelf]
  · show (c.newTimeSlice.mutateLast f).heap.getD
        (c.newTimeSlice.mutateLast f).lastAddr defaultLattice = f c.lastLattice
    have haddr2 : (c.newTimeSlice.mutateLast f).lastAddr = c.heap.length := haddr
    rw [haddr2, hheap]
    exact getD_concat_self c.heap (f c.lastLattice) defaultLattice

/-- Claim C10: initQubit appends the last snapshot itself, not a copy —
the last two history entries are the same lattice object, so a subsequent
in-place mutation of the latest snapshot is equally visible at position
n-1: the snapshot-isolation guarantee of newTimeSlice does not hold across
initQubit. -/
theorem c10_initQubit_aliases_last_snapshot (c : Composer) (f : Lattice → Lattice)
    (h : c.wf) :
    c.initQubit.getSlices = c.getSlices ++ [c.lastLattice] ∧
    c.initQubit.getSlices.getD (c.slices.length - 1) defaultLattice =
      c.initQubit.getSlices.getD c.slices.length defaultLattice ∧
    (c.initQubit.mutateLast f).getSlices.getD (c.slices.length - 1) defaultLattice
      = f c.lastLattice ∧
    (c.initQubit.mutateLast f).getSlices.getD c.slices.length defaultLattice
      = f c.lastLattice := by
  obtain ⟨hne, hlt⟩ := h
  have hlenpos : 0 < c.slices.length := List.length_pos.mpr hne
  have hpred : c.slices.length - 1 < c.slices.length := Nat.sub_lt hlenpos Nat.one_pos
  have hsgetD : c.slices.getD (c.slices.length - 1) 0 = c.lastAddr :=
    (getLastD_eq_getD_pred c.slices 0 hne).symm
  have hglen : c.getSlices.length = c.slices.length := List.length_map _ _
  have hA : c.initQubit.getSlices = c.getSlices ++ [c.lastLattice] := by
    show (c.slices ++ [c.lastAddr]).map (fun a => c.heap.getD a defaultLattice)
        = c.getSlices ++ [c.lastLattice]
    rw [List.map_append]
    rfl
  have haddr : c.initQubit.lastAddr = c.lastAddr := by
    show (c.slices ++ [c.lastAddr]).getLastD 0 = c.lastAddr
    exact getLastD_concat_self c.slices c.lastAddr 0
  have hlastL : c.initQubit.lastLattice = c.lastLattice := by
    show c.heap.getD c.initQubit.lastAddr defaultLattice = c.lastLattice
    rw [haddr]
    rfl
  have haLt : c.lastAddr < c.heap.length := hlt c.lastAddr (getLastD_mem c.slices 0 hne)
  have hg2 : (c.heap.set c.lastAddr (f c.lastLattice)).getD c.lastAddr defaultLattice
      = f c.lastLattice := getD_set_self c.heap (f c.lastLattice) defaultLattice _ haLt
  have hheap2 : (c.initQubit.mutateLast f).heap
      = c.heap.set c.lastAddr (f c.lastLattice) := by
    show c.heap.set c.initQubit.lastAddr (f c.initQubit.lastLattice)
        = c.heap.set c.lastAddr (f c.lastLattice)
    rw [haddr, hlastL]
  have hC : (c.initQubit.mutateLast f).getSlices =
      c.slices.map
          (fun a => (c.heap.set c.lastAddr (f c.lastLattice)).getD a defaultLattice)
        ++ [f c.lastLattice] := by
    show (c.slices ++ [c.lastAddr]).map
        (fun a => (c.initQubit.mutateLast f).heap.getD a defaultLattice) = _
    rw [hheap2, List.map_append]
    simp only [List.map_cons, List.map_nil]
    rw [hg2]
  refine ⟨hA, ?_, ?_, ?_⟩
  · rw [hA]
    rw [getD_append_lt _ _ _ _ (by rw [hglen]; exact hpred)]
    have hr : (c.getSlices ++ [c.lastLattice]).getD c.slices.length defaultLattice
        = c.lastLattice := by
      rw [← hglen]
      exact getD_concat_self c.getSlices c.lastLattice defaultLattice
    rw [hr]
    show (c.slices.map (fun a => c.heap.getD a defaultLattice)).getD
        (c.slices.length - 1) defaultLattice = c.lastLattice
    rw [getD_map_lt _ _ _ 0 _ hpred, hsgetD]
    rfl
  · rw [hC]
    rw [getD_append_lt _ _ _ _ (by rw [List.length_map]; exact hpred)]
    rw [getD_map_lt _ _ _ 0 _ hpred, hsgetD, hg2]
  · rw [hC]
    have hl2 : c.slices.length =
        (c.slices.map
          (fun a => (c.heap.set c.lastAddr (f c.lastLattice)).getD a defaultLattice)).length :=
      (List.length_map _ _).symm
    rw [hl2, getD_concat_self]

/-- Claim C6: an operator map containing a key that is not its own patch
representative makes compute_ancilla_cells fail its opening assert, before
any graph construction or lattice mutation: the result is the
AssertionError with the lattice unchanged. -/
theorem c6_nonrepresentative_key_assertion (l : Lattice) (m : OpMap)
    (h : ∃ q ∈ m, l.getPatchRepresentative q.1 ≠ q.1) :
    compute_ancilla_cells l m = RunResult.err PyError.assertionError l := by
  obtain ⟨q, hmem, hne⟩ := h
  have hall : (m.all (fun q => l.getPatchRepresentative q.1 == q.1)) = false := by
    cases hb : (m.all (fun q => l.getPatchRepresentative q.1 == q.1)) with
    | false => rfl
    | true =>
      have := List.all_eq_true.mp hb q hmem
      exact absurd (by simpa using this) hne
  simp [compute_ancilla_cells, hall]

/-- Lattice used by the C6 witness: one two-cell patch whose representative
is (0, 0). -/
def c6Lattice : Lattice :=
  ⟨[⟨PatchType.Qubit, some InitializeableState.Zero, [(0, 0), (1, 0)], [], none⟩], 2, 0⟩

/-- Operator map used by the C6 witness: keyed by the non-representative
cell (1, 0). -/
def c6Map : OpMap := [((1, 0), PauliOperator.X)]

/-- Witness for C6 at a concrete lattice and map. -/
theorem c6_nonrepresentative_key_assertion_witness :
    (∃ q ∈ c6Map, c6Lattice.getPatchRepresentative q.1 ≠ q.1) ∧
    compute_ancilla_cells c6Lattice c6Map
      = RunResult.err PyError.assertionError c6Lattice :=
  ⟨⟨((1, 0), PauliOperator.X), by decide, by decide⟩,
   c6_nonrepresentative_key_assertion c6Lattice c6Map
     ⟨((1, 0), PauliOperator.X), by decide, by decide⟩⟩

theorem unstitched_type_idem (t : EdgeType) :
    t.unstitched_type.unstitched_type = t.unstitched_type := by
  cases t <;> rfl

theorem unstitched_type_not_stiched (t : EdgeType) :
    t.unstitched_type ≠ EdgeType.SolidStiched ∧
      t.unstitched_type ≠ EdgeType.DashedStiched := by
  cases t <;> exact ⟨by decide, by decide⟩

theorem edgeUnstitch_idem (e : Edge) :
    edgeUnstitch (edgeUnstitch e) = edgeUnstitch e := by
  simp [edgeUnstitch, unstitched_type_idem]

theorem mapUnstitch_idem (l : List Edge) :
    (l.map edgeUnstitch).map edgeUnstitch = l.map edgeUnstitch := by
  rw [List.map_map]
  exact mapCongrMem _ _ _ (fun e _ => edgeUnstitch_idem e)

theorem unstitchPatch_idem (p : Patch) :
    unstitchPatch (unstitchPatch p) = unstitchPatch p := by
  simp only [unstitchPatch]
  rw [mapUnstitch_idem]

theorem clearList_idem (ps : List Patch) :
    (((ps.map unstitchPatch).filter
        (fun p => decide (p.patch_type ≠ PatchType.Ancilla))).map unstitchPatch).filter
      (fun p => decide (p.patch_type ≠ PatchType.Ancilla)) =
    (ps.map unstitchPatch).filter (fun p => decide (p.patch_type ≠ PatchType.Ancilla)) := by
  induction ps with
  | nil => rfl
  | cons p t ih =>
    simp only [List.map_cons]
    by_cases hq : (unstitchPatch p).patch_type = PatchType.Ancilla
    · rw [List.filter_cons_of_neg (by simp [hq])]
      exact ih
    · rw [List.filter_cons_of_pos (by simp [hq])]
      simp only [List.map_cons]
      rw [List.filter_cons_of_pos (by simp [unstitchPatch_idem, hq])]
      rw [unstitchPatch_idem, ih]

theorem clearAncillaL_idem (l : Lattice) :
    clearAncillaL (clearAncillaL l) = clearAncillaL l := by
  simp only [clearAncillaL]
  rw [clearList_idem]

theorem clearAncillaL_no_ancilla (l : Lattice) :
    ∀ p ∈ (clearAncillaL l).patches, p.patch_type ≠ PatchType.Ancilla := by
  intro p hp
  have := List.of_mem_filter hp
  simpa using this

theorem clearAncillaL_unstitched (l : Lattice) :
    ∀ p ∈ (clearAncillaL l).patches, ∀ e ∈ p.edges,
      e.border_type ≠ EdgeType.SolidStiched ∧
        e.border_type ≠ EdgeType.DashedStiched := by
  intro p hp e he
  have hpm : p ∈ l.patches.map unstitchPatch := List.mem_of_mem_filter hp
  obtain ⟨p0, _, hp0⟩ := List.mem_map.mp hpm
  subst hp0
  obtain ⟨e0, _, he0⟩ := List.mem_map.mp he
  subst he0
  exact unstitched_type_not_stiched e0.border_type

/-- Claim C8: on a composer with a non-empty history, clearAncilla twice
yields the same last-snapshot state as once, and after one call no Ancilla
patch remains and no border of a remaining patch is of a stitched type. -/
theorem c8_clearAncilla_idempotent_complete (c : Composer) (h : c.wf) :
    c.clearAncilla.clearAncilla.lastLattice = c.clearAncilla.lastLattice ∧
    (∀ p ∈ c.clearAncilla.lastLattice.patches, p.patch_type ≠ PatchType.Ancilla) ∧
    (∀ p ∈ c.clearAncilla.lastLattice.patches, ∀ e ∈ p.edges,
      e.border_type ≠ EdgeType.SolidStiched ∧
        e.border_type ≠ EdgeType.DashedStiched) := by
  have h1 : c.clearAncilla.lastLattice = clearAncillaL c.lastLattice :=
    Composer.mutateLast_lastLattice c clearAncillaL h
  have hwf1 : c.clearAncilla.wf := Composer.mutateLast_wf c clearAncillaL h
  have h2a : c.clearAncilla.clearAncilla.lastLattice
      = clearAncillaL c.clearAncilla.lastLattice :=
    Composer.mutateLast_lastLattice c.clearAncilla clearAncillaL hwf1
  have h2 : c.clearAncilla.clearAncilla.lastLattice
      = clearAncillaL (clearAncillaL c.lastLattice) := by
    rw [h2a, h1]
  refine ⟨?_, ?_, ?_⟩
  · rw [h2, h1, clearAncillaL_idem]
  · rw [h1]
    exact clearAncillaL_no_ancilla c.lastLattice
  · rw [h1]
    exact clearAncillaL_unstitched c.lastLattice

/-- Composer used by the C8 witness: one snapshot holding a stitched qubit
patch and an ancilla patch. -/
def c8WitComposer : Composer :=
  ⟨[⟨[⟨PatchType.Qubit, some InitializeableState.Zero, [(0, 0)],
        [⟨(0, 0), Orientation.Right, EdgeType.DashedStiched⟩], none⟩,
      ⟨PatchType.Ancilla, none, [(1, 0)], [], none⟩], 2, 0⟩], [0]⟩

/-- Witness for C8 at a concrete composer. -/
theorem c8_clearAncilla_idempotent_complete_witness :
    c8WitComposer.wf ∧
    (c8WitComposer.clearAncilla.clearAncilla.lastLattice
        = c8WitComposer.clearAncilla.lastLattice ∧
      (∀ p ∈ c8WitComposer.clearAncilla.lastLattice.patches,
        p.patch_type ≠ PatchType.Ancilla) ∧
      (∀ p ∈ c8WitComposer.clearAncilla.lastLattice.patches, ∀ e ∈ p.edges,
        e.border_type ≠ EdgeType.SolidStiched ∧
          e.border_type ≠ EdgeType.DashedStiched)) :=
  ⟨⟨by decide, by decide⟩,
   c8_clearAncilla_idempotent_complete c8WitComposer ⟨by decide, by decide⟩⟩

/-- Composer used by the C5 witness. -/
def c5WitComposer : Composer :=
  ⟨[⟨[singleSquarePatch (0, 0) PatchType.Qubit (some InitializeableState.Zero)], 2, 0⟩],
    [0]⟩

/-- Witness for C5 at a concrete composer, with clearAncillaL as the
mutation. -/
theorem c5_newTimeSlice_snapshot_isolation_witness :
    c5WitComposer.wf ∧
    (c5WitComposer.newTimeSlice.getSlices
        = c5WitComposer.getSlices ++ [c5WitComposer.lastLattice] ∧
      (c5WitComposer.newTimeSlice.mutateLast clearAncillaL).getSlices.take
          c5WitComposer.slices.length = c5WitComposer.getSlices ∧
      (c5WitComposer.newTimeSlice.mutateLast clearAncillaL).lastLattice
        = clearAncillaL c5WitComposer.lastLattice) :=
  ⟨⟨by decide, by decide⟩,
   c5_newTimeSlice_snapshot_isolation c5WitComposer clearAncillaL
     ⟨by decide, by decide⟩⟩

/-- Composer used by the C10 witness: two snapshots, the second one a fresh
object holding a single patch. -/
def c10WitComposer : Composer :=
  ⟨[⟨[], 1, 1⟩,
    ⟨[singleSquarePatch (2, 0) PatchType.Qubit (some InitializeableState.Zero)], 2, 2⟩],
    [0, 1]⟩

/-- Witness for C10 at a concrete composer, with the clearLattice mutation. -/
theorem c10_initQubit_aliases_last_snapshot_witness :
    c10WitComposer.wf ∧
    (c10WitComposer.initQubit.getSlices
        = c10WitComposer.getSlices ++ [c10WitComposer.lastLattice] ∧
      c10WitComposer.initQubit.getSlices.getD
          (c10WitComposer.slices.length - 1) defaultLattice =
        c10WitComposer.initQubit.getSlices.getD
          c10WitComposer.slices.length defaultLattice ∧
      (c10WitComposer.initQubit.mutateLast
          (fun l => ⟨[], l.min_rows, l.min_cols⟩)).getSlices.getD
          (c10WitComposer.slices.length - 1) defaultLattice
        = (fun l : Lattice => (⟨[], l.min_rows, l.min_cols⟩ : Lattice))
            c10WitComposer.lastLattice ∧
      (c10WitComposer.initQubit.mutateLast
          (fun l => ⟨[], l.min_rows, l.min_cols⟩)).getSlices.getD
          c10WitComposer.slices.length defaultLattice
        = (fun l : Lattice => (⟨[], l.min_rows, l.min_cols⟩ : Lattice))
            c10WitComposer.lastLattice) :=
  ⟨⟨by decide, by decide⟩,
   c10_initQubit_aliases_last_snapshot c10WitComposer
     (fun l => ⟨[], l.min_rows, l.min_cols⟩) ⟨by decide, by decide⟩⟩

/- ----------------------------------------------------------------- -/
/- Claim C9: the derived lattice size.                                -/
/- ----------------------------------------------------------------- -/

/-- All row coordinates of all patch cells, in lattice order (the
all_coords chain of getMaxCoord at Row). -/
def rowCoordList (l : Lattice) : List Int :=
  (l.patches.map (fun p => p.getCoordList CoordType.Row)).flatten

/-- All column coordinates of all patch cells, in lattice order. -/
def colCoordList (l : Lattice) : List Int :=
  (l.patches.map (fun p => p.getCoordList CoordType.Col)).flatten

/-- The value claim C9 says getRows returns: the maximum row coordinate
over all patch cells, floored at the declared minimum.  Stated from the
claim wording, for comparison with the source getMaxCoord. -/
def claimedRows (l : Lattice) : Int :=
  (rowCoordList l).foldl max l.min_rows

/-- The value claim C9 says getCols returns, stated from the claim
wording. -/
def claimedCols (l : Lattice) : Int :=
  (colCoordList l).foldl max l.min_cols

theorem le_foldl_max (xs : List Int) : ∀ x : Int, x ≤ xs.foldl max x := by
  induction xs with
  | nil => intro x; exact le_refl x
  | cons y t ih =>
    intro x
    exact le_trans (le_max_left x y) (ih (max x y))

theorem mem_le_foldl_max (xs : List Int) :
    ∀ (x y : Int), y ∈ xs → y ≤ xs.foldl max x := by
  induction xs with
  | nil => intro x y hy; exact absurd hy (List.not_mem_nil y)
  | cons z t ih =>
    intro x y hy
    rcases List.mem_cons.mp hy with h | h
    · subst h
      exact le_trans (le_max_right x y) (le_foldl_max t (max x y))
    · exact ih (max x z) y h

theorem foldl_max_cases (xs : List Int) :
    ∀ x : Int, xs.foldl max x = x ∨ xs.foldl max x ∈ xs := by
  induction xs with
  | nil => intro x; exact Or.inl rfl
  | cons y t ih =>
    intro x
    rcases ih (max x y) with h | h
    · rcases max_choice x y with hm | hm
      · exact Or.inl (by rw [List.foldl_cons, h, hm])
      · refine Or.inr ?_
        rw [List.foldl_cons, h, hm]
        exact List.mem_cons_self y t
    · exact Or.inr (List.mem_cons_of_mem y h)

theorem getMaxCoord_empty (l : Lattice) (ct : CoordType)
    (h : (l.patches.map (fun p => p.getCoordList ct)).flatten = []) :
    l.getMaxCoord ct = none := by
  simp [Lattice.getMaxCoord, h]

theorem max_expr_char (lb r x : Int) (xs : List Int)
    (hr : r = max (1 + xs.foldl max x) lb) :
    lb ≤ r ∧ (∀ y ∈ x :: xs, y + 1 ≤ r) ∧
      (r = lb ∨ ∃ y ∈ x :: xs, r = y + 1) := by
  refine ⟨?_, ?_, ?_⟩
  · rw [hr]
    exact le_max_right _ _
  · intro y hy
    have hy2 : y ≤ xs.foldl max x := by
      rcases List.mem_cons.mp hy with hh | hh
      · subst hh
        exact le_foldl_max xs y
      · exact mem_le_foldl_max xs x y hh
    rw [hr]
    have h1 : y + 1 ≤ 1 + xs.foldl max x := by omega
    exact le_trans h1 (le_max_left _ _)
  · rcases max_choice (1 + xs.foldl max x) lb with hm | hm
    · refine Or.inr ⟨xs.foldl max x, ?_, by rw [hr, hm]; omega⟩
      rcases foldl_max_cases xs x with hf | hf
      · rw [hf]
        exact List.mem_cons_self x xs
      · exact List.mem_cons_of_mem x hf
    · exact Or.inl (by rw [hr, hm])

/-- Claim C9, amended to what the code computes: on a lattice holding at
least one patch cell, getRows returns one more than the maximum row
coordinate, floored at the declared minimum row count (and getCols the
same on columns); on a lattice with no patch cells (for example after
clearLattice), getRows and getCols raise ValueError instead of returning
the declared minimum. -/
theorem c9_derived_size_characterization (l : Lattice) :
    (rowCoordList l = [] → l.getRows = none) ∧
    (∀ r : Int, l.getRows = some r →
      l.min_rows ≤ r ∧ (∀ x ∈ rowCoordList l, x + 1 ≤ r) ∧
      (r = l.min_rows ∨ ∃ x ∈ rowCoordList l, r = x + 1)) ∧
    (colCoordList l = [] → l.getCols = none) ∧
    (∀ r : Int, l.getCols = some r →
      l.min_cols ≤ r ∧ (∀ x ∈ colCoordList l, x + 1 ≤ r) ∧
      (r = l.min_cols ∨ ∃ x ∈ colCoordList l, r = x + 1)) := by
  refine ⟨?_, ?_, ?_, ?_⟩
  · intro h
    exact getMaxCoord_empty l CoordType.Row h
  · intro r h
    cases hc : rowCoordList l with
    | nil =>
      have h0 : l.getRows = none := getMaxCoord_empty l CoordType.Row hc
      rw [h0] at h
      exact absurd h (by simp)
    | cons x xs =>
      have hc2 : (l.patches.map (fun p => p.getCoordList CoordType.Row)).flatten
          = x :: xs := hc
      have hval : l.getRows = some (max (1 + xs.foldl max x) l.min_rows) := by
        simp [Lattice.getRows, Lattice.getMaxCoord, hc2]
      rw [hval] at h
      have hr : r = max (1 + xs.foldl max x) l.min_rows := (Option.some.inj h).symm
      exact max_expr_char l.min_rows r x xs hr
  · intro h
    exact getMaxCoord_empty l CoordType.Col h
  · intro r h
    cases hc : colCoordList l with
    | nil =>
      have h0 : l.getCols = none := getMaxCoord_empty l CoordType.Col hc
      rw [h0] at h
      exact absurd h (by simp)
    | cons x xs =>
      have hc2 : (l.patches.map (fun p => p.getCoordList CoordType.Col)).flatten
          = x :: xs := hc
      have hval : l.getCols = some (max (1 + xs.foldl max x) l.min_cols) := by
        simp [Lattice.getCols, Lattice.getMaxCoord, hc2]
      rw [hval] at h
      have hr : r = max (1 + xs.foldl max x) l.min_cols := (Option.some.inj h).symm
      exact max_expr_char l.min_cols r x xs hr

/-- Lattice used by the C9 counterexample: one cell at row 5, declared
minimum of 2 rows. -/
def c9Lattice : Lattice :=
  ⟨[⟨PatchType.Qubit, some InitializeableState.Zero, [(0, 5)], [], none⟩], 2, 0⟩

/-- Lattice used by the C9 empty case: no patches at all. -/
def c9EmptyLattice : Lattice := ⟨[], 2, 3⟩

/-- Claim C9 as stated is false on the code at two concrete inputs: on a
lattice with one cell at row 5 and minimum 2, getRows returns 6 while the
claim predicts the floored maximum coordinate 5; and on an empty lattice
getRows raises ValueError (none) while the claim says it returns the
floored minimum 2. -/
theorem c9_claim_false_on_concrete_lattices :
    c9Lattice.getRows = some 6 ∧ claimedRows c9Lattice = 5 ∧ (6 : Int) ≠ 5 ∧
    c9EmptyLattice.getRows = none ∧ claimedRows c9EmptyLattice = 2 :=
  ⟨by decide, by decide, by decide, by decide, by decide⟩

/-- Witness for C9: the empty-lattice branch and the bound of the some
branch, both read off the characterization theorem at concrete lattices. -/
theorem c9_derived_size_characterization_witness :
    c9EmptyLattice.getRows = none ∧ c9Lattice.min_rows ≤ 6 :=
  ⟨(c9_derived_size_characterization c9EmptyLattice).1 rfl,
   ((c9_derived_size_characterization c9Lattice).2.1 6 (by decide)).1⟩

end LSC
